import Mathlib

/-!
Verification development for the ABX accent evaluation drivers.

Driver A (src/eval/fastABX/run_fastabx.py) batch-computes ABX scores per
accent; Driver B (src/eval/generate_item_files/aesrc_item.py) generates an
ABX item file from a corpus and an alignment file.  Both are shallowly
embedded here: the filesystem is a finite set of existing paths, external
library calls are recorded as events and may raise according to an oracle
function, and standard-output / standard-error writes are events.
-/

namespace ABXAccent

/-- A filesystem: the set of paths (files or directories) that exist.
Path.exists in the source is true for files and directories alike, so a
single namespace of paths suffices. -/
structure FS where
  paths : List String
deriving DecidableEq, Repr

/-- Python pathlib Path.exists: the path is present in the filesystem. -/
def FS.pathExists (fs : FS) (p : String) : Bool :=
  fs.paths.contains p

/-- Python pathlib Path.mkdir with parents and exist_ok: add the directory
if absent, otherwise leave the filesystem unchanged. -/
def FS.mkdirP (fs : FS) (d : String) : FS :=
  if fs.paths.contains d then fs else ⟨d :: fs.paths⟩

/-- Python pathlib slash operator: join two path components. -/
def joinPath (a b : String) : String :=
  a ++ "/" ++ b

/-- Python str.lower: lowercase every character. -/
def strToLower (s : String) : String :=
  String.mk (s.data.map Char.toLower)

/-- Split a character list on the slash separator. -/
def splitOnSlash : List Char → List (List Char)
  | [] => [[]]
  | c :: rest =>
      match splitOnSlash rest with
      | [] => [[]]
      | g :: gs => if c = '/' then [] :: g :: gs else (c :: g) :: gs

/-- Python pathlib Path.parent: drop the last path component. -/
def parentPath (p : String) : String :=
  let parts := (splitOnSlash p.data).map String.mk
  if parts.length ≤ 1 then "." else String.intercalate "/" parts.dropLast

/-! ## Driver A: run_fastabx.py -/

/-- A call into the external fastabx library, with the parameters the
driver passes.  The mkTask across argument is an Option so that passing
no across axis (the within task) is distinguished from passing an empty
list. -/
inductive ExtCall where
  | loadDataset (item features times : String)
  | mkTask (onAttr : String) (byAttrs : List String) (acrossAttrs : Option (List String))
  | mkScore (metric : String)
  | writeCsv (name : String)
  | collapse (weighted : Bool)
deriving DecidableEq, Repr

/-- An observable effect of Driver A.  out is a print to standard output;
outValue is a print of an externally produced value (a collapsed score);
outException is the print of the caught exception message for an accent
(exception text opaque); errTraceback is traceback.print_exc, which
writes to standard error; extA is an external library call; csvWrite is
the CSV file created in the working directory by a successful write_csv. -/
inductive EventA where
  | out (s : String)
  | outValue
  | outException (accent : String)
  | errTraceback
  | extA (c : ExtCall)
  | csvWrite (name : String)
deriving DecidableEq, Repr

/-- One fallible statement inside the try block: the prints before the
call, the external call itself, and the events emitted when it returns
normally. -/
structure Step where
  pre : List EventA
  call : ExtCall
  post : List EventA
deriving DecidableEq, Repr

/-- Run the steps of the try block in order.  A raising call (the oracle
ext returns true) aborts the remaining steps; the raised exception is
handled by the caller. -/
def runSteps (ext : ExtCall → Bool) : List Step → Bool × List EventA
  | [] => (true, [])
  | s :: rest =>
      if ext s.call = true then
        (false, s.pre ++ [EventA.extA s.call])
      else
        ((runSteps ext rest).1,
          s.pre ++ [EventA.extA s.call] ++ s.post ++ (runSteps ext rest).2)

/-- The trace of the try block when no call raises. -/
def fullTrace : List Step → List EventA
  | [] => []
  | s :: rest => s.pre ++ [EventA.extA s.call] ++ s.post ++ fullTrace rest

/-- The external calls recorded in a trace. -/
def extACalls : List EventA → List ExtCall
  | [] => []
  | EventA.extA c :: rest => c :: extACalls rest
  | EventA.out _ :: rest => extACalls rest
  | EventA.outValue :: rest => extACalls rest
  | EventA.outException _ :: rest => extACalls rest
  | EventA.errTraceback :: rest => extACalls rest
  | EventA.csvWrite _ :: rest => extACalls rest

/-- The names of the CSV files written in a trace. -/
def csvWrites : List EventA → List String
  | [] => []
  | EventA.csvWrite n :: rest => n :: csvWrites rest
  | EventA.out _ :: rest => csvWrites rest
  | EventA.outValue :: rest => csvWrites rest
  | EventA.outException _ :: rest => csvWrites rest
  | EventA.errTraceback :: rest => csvWrites rest
  | EventA.extA _ :: rest => csvWrites rest

/-- The standard-error writes in a trace (only traceback.print_exc
writes to standard error in Driver A). -/
def stderrWrites : List EventA → List EventA
  | [] => []
  | EventA.errTraceback :: rest => EventA.errTraceback :: stderrWrites rest
  | EventA.out _ :: rest => stderrWrites rest
  | EventA.outValue :: rest => stderrWrites rest
  | EventA.outException _ :: rest => stderrWrites rest
  | EventA.extA _ :: rest => stderrWrites rest
  | EventA.csvWrite _ :: rest => stderrWrites rest

/-- The ABXProcessor configuration: the three directories given to the
constructor. -/
structure ABXProcessor where
  base_dir : String
  features_dir : String
  times_dir : String
deriving DecidableEq, Repr

/-- ABXProcessor.get_item_file_path: base_dir / accent / abx /
accent-lowercased followed by _item.item. -/
def ABXProcessor.getItemFilePath (p : ABXProcessor) (accent : String) : String :=
  joinPath (joinPath (joinPath p.base_dir accent) "abx") (strToLower accent ++ "_item.item")

/-- ABXProcessor.get_accent_directories: use the per-accent subdirectory
when it exists, else the global directory; same rule for features and
times. -/
def ABXProcessor.getAccentDirectories (p : ABXProcessor) (fs : FS) (accent : String) :
    String × String :=
  let accent_features := joinPath p.features_dir accent
  let accent_times := joinPath p.times_dir accent
  ((if fs.pathExists accent_features then accent_features else p.features_dir),
   (if fs.pathExists accent_times then accent_times else p.times_dir))

/-- The 60-character separator line printed by the driver. -/
def sepLine : String :=
  String.mk (List.replicate 60 '=')

/-- The three header prints at the top of process_accent. -/
def headerEvents (accent : String) : List EventA :=
  [EventA.out sepLine,
   EventA.out ("Processing accent: " ++ accent),
   EventA.out sepLine]

/-- The two prints of the missing-item-file branch. -/
def warnEvents (accent item : String) : List EventA :=
  [EventA.out ("Warning: Item file not found: " ++ item),
   EventA.out ("Skipping " ++ accent)]

/-- Name of the across-speaker CSV written for an accent. -/
def acrossCsvName (accent : String) : String :=
  strToLower accent ++ "_dev_across_scores.csv"

/-- Name of the within-speaker CSV written for an accent. -/
def withinCsvName (accent : String) : String :=
  strToLower accent ++ "_dev_within_scores.csv"

/-- The statements of the try block of process_accent, in source order:
dataset load, across task, across score, across CSV write, across
collapse, within task, within score, within CSV write, within collapse. -/
def bodySteps (accent item features times : String) : List Step :=
  [⟨[EventA.out ("Loading dataset from " ++ item),
     EventA.out ("Features directory: " ++ features),
     EventA.out ("Times directory: " ++ times)],
    ExtCall.loadDataset item features times, []⟩,
   ⟨[EventA.out "Creating across-speaker task"],
    ExtCall.mkTask "#phone" ["next-phone", "prev-phone"] (some ["speaker"]), []⟩,
   ⟨[EventA.out "Computing across-speaker scores with angular distance"],
    ExtCall.mkScore "angular", []⟩,
   ⟨[EventA.out ("Writing across-speaker results to " ++ acrossCsvName accent)],
    ExtCall.writeCsv (acrossCsvName accent), [EventA.csvWrite (acrossCsvName accent)]⟩,
   ⟨[EventA.out "Across-speaker collapsed scores (weighted):"],
    ExtCall.collapse true, [EventA.outValue]⟩,
   ⟨[EventA.out "\nCreating within-speaker task"],
    ExtCall.mkTask "#phone" ["next-phone", "prev-phone", "speaker"] none, []⟩,
   ⟨[EventA.out "Computing within-speaker scores with angular distance"],
    ExtCall.mkScore "angular", []⟩,
   ⟨[EventA.out ("Writing within-speaker results to " ++ withinCsvName accent)],
    ExtCall.writeCsv (withinCsvName accent), [EventA.csvWrite (withinCsvName accent)]⟩,
   ⟨[EventA.out "Within-speaker collapsed scores (weighted):"],
    ExtCall.collapse true, [EventA.outValue]⟩]

/-- ABXProcessor.process_accent: print the header, resolve paths, skip
with a warning if the item file is absent, otherwise run the try block;
a raised exception is caught, the error message is printed to standard
output and the stack trace to standard error, and False is returned. -/
def processAccent (p : ABXProcessor) (fs : FS) (ext : ExtCall → Bool) (accent : String) :
    Bool × List EventA :=
  let item := p.getItemFilePath accent
  let dirs := p.getAccentDirectories fs accent
  if fs.pathExists item = false then
    (false, headerEvents accent ++ warnEvents accent item)
  else
    let r := runSteps ext (bodySteps accent item dirs.1 dirs.2)
    if r.1 = true then
      (true, headerEvents accent ++ r.2 ++
        [EventA.out ("Successfully processed " ++ accent ++ " (both across and within)")])
    else
      (false, headerEvents accent ++ r.2 ++
        [EventA.outException accent, EventA.errTraceback])

/-- The per-accent loop of process_all_accents: returns the success
count, the failed accents in iteration order, and the concatenated
traces (with the blank line printed between accents). -/
def processLoop (p : ABXProcessor) (fs : FS) (ext : ExtCall → Bool) :
    List String → Nat × List String × List EventA
  | [] => (0, [], [])
  | accent :: rest =>
      let r := processAccent p fs ext accent
      let next := processLoop p fs ext rest
      if r.1 = true then
        (next.1 + 1, next.2.1, r.2 ++ [EventA.out ""] ++ next.2.2)
      else
        (next.1, accent :: next.2.1, r.2 ++ [EventA.out ""] ++ next.2.2)

/-- The counts reported by the final summary. -/
structure Summary where
  total : Nat
  successCount : Nat
  failedAccents : List String
deriving DecidableEq, Repr

/-- The summary prints at the end of process_all_accents. -/
def summaryEvents (total successCount : Nat) (failed : List String) : List EventA :=
  [EventA.out sepLine,
   EventA.out "PROCESSING SUMMARY",
   EventA.out sepLine,
   EventA.out ("Total accents: " ++ toString total),
   EventA.out ("Successfully processed: " ++ toString successCount),
   EventA.out ("Failed: " ++ toString failed.length)] ++
  (if failed = [] then [] else
    [EventA.out ("Failed accents: " ++ String.intercalate ", " failed)]) ++
  [EventA.out "All accents have been processed."]

/-- ABXProcessor.process_all_accents: run every accent, accumulate the
counts, and print the summary. -/
def processAllAccents (p : ABXProcessor) (fs : FS) (ext : ExtCall → Bool)
    (accents : List String) : Summary × List EventA :=
  let r := processLoop p fs ext accents
  (⟨accents.length, r.1, r.2.1⟩,
   r.2.2 ++ summaryEvents accents.length r.1 r.2.1)

/-- ABXProcessor constructor effect on the filesystem: create the
features and times directories if absent. -/
def initProcessorFS (fs : FS) (features_dir times_dir : String) : FS :=
  (fs.mkdirP features_dir).mkdirP times_dir

/-- A full Driver A run at the processor level: construct the processor
(creating the two directories) and process every accent. -/
def driverARun (fs : FS) (ext : ExtCall → Bool)
    (base_dir features_dir times_dir : String) (accents : List String) :
    FS × Summary × List EventA :=
  let fs2 := initProcessorFS fs features_dir times_dir
  let p : ABXProcessor := ⟨base_dir, features_dir, times_dir⟩
  (fs2, processAllAccents p fs2 ext accents)

/-! ## Driver B: aesrc_item.py -/

/-- A call into the external abkhazia library made by Driver B. -/
inductive BCall where
  | loadCorpus (dir : String)
  | alignment2item (alignment_file item_file segment_ext : String)
      (exclude_phones : List String) (njobs verbose : Nat) (ali_with_phone_proba : Bool)
deriving DecidableEq, Repr

/-- An observable effect of Driver B.  out is a print to standard output;
errOut is a print to standard error with the shown text; errOutExc is
the top-level print of an external exception to standard error; logInfo
is an info-level log line; logInfoTail is an info log line whose tail
is an external value (the utterance count); logErrTail is an
error-level log line whose tail is an exception text; extB is an
external library call. -/
inductive EventB where
  | out (s : String)
  | errOut (s : String)
  | errOutExc
  | logInfo (s : String)
  | logInfoTail (s : String)
  | logErrTail (s : String)
  | extB (c : BCall)
deriving DecidableEq, Repr

/-- The external calls recorded in a Driver B trace. -/
def bCalls : List EventB → List BCall
  | [] => []
  | EventB.extB c :: rest => c :: bCalls rest
  | EventB.out _ :: rest => bCalls rest
  | EventB.errOut _ :: rest => bCalls rest
  | EventB.errOutExc :: rest => bCalls rest
  | EventB.logInfo _ :: rest => bCalls rest
  | EventB.logInfoTail _ :: rest => bCalls rest
  | EventB.logErrTail _ :: rest => bCalls rest

/-- The parsed command-line arguments of Driver B, with the argparse
defaults. -/
structure ArgsB where
  alignment_file : String
  corpus_dir : String
  item_file : String
  segment_ext : String := "single_phone"
  exclude_phones : List String := []
  njobs : Nat := 4
  verbose : Nat := 1
  ali_with_phone_proba : Bool := false
  validate_only : Bool := false
deriving DecidableEq, Repr

/-- AESRCABXGenerator._validate_inputs: the corpus directory must exist,
then the alignment file must exist, then the parent of the output item
file is created.  An error carries the FileNotFoundError message. -/
def validateInputs (fs : FS) (corpus_dir alignment_file item_file : String) :
    Except String FS :=
  if fs.pathExists corpus_dir = false then
    Except.error ("Corpus directory does not exist: " ++ corpus_dir)
  else if fs.pathExists alignment_file = false then
    Except.error ("Alignment file does not exist: " ++ alignment_file)
  else
    Except.ok (fs.mkdirP (parentPath item_file))

/-- AESRCABXGenerator.run: load the corpus, then convert the alignment to
an item file.  A failure in either external call is logged (twice: once
in the failing method, once in run) and re-raised to the caller. -/
def runGen (a : ArgsB) (ext : BCall → Bool) : Bool × List EventB :=
  let loadCall := BCall.loadCorpus a.corpus_dir
  let genCall := BCall.alignment2item a.alignment_file a.item_file a.segment_ext
    a.exclude_phones a.njobs a.verbose a.ali_with_phone_proba
  let loadPre := [EventB.logInfo ("Loading corpus from: " ++ a.corpus_dir),
                  EventB.extB loadCall]
  if ext loadCall = true then
    (false, loadPre ++
      [EventB.logErrTail "Failed to load corpus: ",
       EventB.logErrTail "ABX item generation failed: "])
  else
    let genPre := loadPre ++
      [EventB.logInfoTail "Successfully loaded corpus with ",
       EventB.logInfo "Generating ABX item file...",
       EventB.logInfo ("Alignment file: " ++ a.alignment_file),
       EventB.logInfo ("Output item file: " ++ a.item_file),
       EventB.logInfo ("Segment extension: " ++ a.segment_ext),
       EventB.logInfo ("Excluded phones: " ++ toString a.exclude_phones),
       EventB.logInfo ("Number of jobs: " ++ toString a.njobs),
       EventB.extB genCall]
    if ext genCall = true then
      (false, genPre ++
        [EventB.logErrTail "Failed to generate item file: ",
         EventB.logErrTail "ABX item generation failed: "])
    else
      (true, genPre ++
        [EventB.logInfo ("Successfully generated item file: " ++ a.item_file),
         EventB.logInfo "ABX item generation completed successfully!"])

/-- The prints of the validate-only branch of main. -/
def validateOnlyEvents (a : ArgsB) : List EventB :=
  [EventB.out "✓ All inputs validated successfully!",
   EventB.out ("Corpus directory: " ++ a.corpus_dir),
   EventB.out ("Alignment file: " ++ a.alignment_file),
   EventB.out ("Output item file: " ++ a.item_file)]

/-- Driver B main: construct the generator (which validates the inputs),
then either report the validation (validate-only) or run the generation;
any exception is printed to standard error and turned into exit status
1, success is exit status 0.  Returns the exit status, the events, and
the resulting filesystem. -/
def mainB (fs : FS) (a : ArgsB) (ext : BCall → Bool) : Nat × List EventB × FS :=
  match validateInputs fs a.corpus_dir a.alignment_file a.item_file with
  | Except.error msg => (1, [EventB.errOut ("Error: " ++ msg)], fs)
  | Except.ok fs2 =>
      if a.validate_only = true then
        (0, validateOnlyEvents a, fs2)
      else
        let r := runGen a ext
        if r.1 = true then (0, r.2, fs2)
        else (1, r.2 ++ [EventB.errOutExc], fs2)

/-! ## Helper lemmas -/

theorem extACalls_append (l1 l2 : List EventA) :
    extACalls (l1 ++ l2) = extACalls l1 ++ extACalls l2 := by
  induction l1 with
  | nil => rfl
  | cons e rest ih => cases e <;> simp [extACalls, ih]

theorem csvWrites_append (l1 l2 : List EventA) :
    csvWrites (l1 ++ l2) = csvWrites l1 ++ csvWrites l2 := by
  induction l1 with
  | nil => rfl
  | cons e rest ih => cases e <;> simp [csvWrites, ih]

theorem stderrWrites_append (l1 l2 : List EventA) :
    stderrWrites (l1 ++ l2) = stderrWrites l1 ++ stderrWrites l2 := by
  induction l1 with
  | nil => rfl
  | cons e rest ih => cases e <;> simp [stderrWrites, ih]

theorem bCalls_append (l1 l2 : List EventB) :
    bCalls (l1 ++ l2) = bCalls l1 ++ bCalls l2 := by
  induction l1 with
  | nil => rfl
  | cons e rest ih => cases e <;> simp [bCalls, ih]

/-- When no step raised, the trace of the try block is the full trace. -/
theorem runSteps_ok (ext : ExtCall → Bool) (steps : List Step)
    (h : (runSteps ext steps).1 = true) :
    (runSteps ext steps).2 = fullTrace steps := by
  induction steps with
  | nil => rfl
  | cons s rest ih =>
      by_cases hc : ext s.call = true
      · simp [runSteps, hc] at h
      · simp only [runSteps, hc, if_false] at h ⊢
        simp [fullTrace, ih h]

/-- The try block succeeds exactly when no call of any step raises. -/
theorem runSteps_ok_iff (ext : ExtCall → Bool) (steps : List Step) :
    (runSteps ext steps).1 = true ↔ ∀ s ∈ steps, ext s.call = false := by
  induction steps with
  | nil => simp [runSteps]
  | cons s rest ih =>
      by_cases hc : ext s.call = true
      · simp [runSteps, hc]
      · have hcf : ext s.call = false := by simpa using hc
        simp [runSteps, hcf, ih]

/-- Every external call recorded by the try block is the call of one of
its steps, provided the pre and post event lists contain no external
call. -/
theorem runSteps_calls (ext : ExtCall → Bool) (steps : List Step)
    (hclean : ∀ s ∈ steps, extACalls s.pre = [] ∧ extACalls s.post = []) :
    ∀ c, c ∈ extACalls (runSteps ext steps).2 → c ∈ steps.map Step.call := by
  induction steps with
  | nil =>
      intro c h
      simp [runSteps, extACalls] at h
  | cons s rest ih =>
      intro c h
      have hs := hclean s (by simp)
      have hrest : ∀ s2 ∈ rest, extACalls s2.pre = [] ∧ extACalls s2.post = [] := by
        intro s2 hs2
        exact hclean s2 (by simp [hs2])
      by_cases hc : ext s.call = true
      · simp only [runSteps, hc, if_true] at h
        rw [extACalls_append, hs.1] at h
        simp [extACalls] at h
        simp [h]
      · have hcf : ext s.call = false := by simpa using hc
        simp only [runSteps, hcf, Bool.false_eq_true, if_false] at h
        rw [List.append_assoc, List.append_assoc, extACalls_append, hs.1] at h
        rw [extACalls_append, extACalls_append, hs.2] at h
        simp [extACalls] at h
        rcases h with h | h
        · simp [h]
        · have := ih hrest c h
          simp [this]

/-- The loop counts partition the accent list: successes plus failures
equal the number of accents. -/
theorem processLoop_count (p : ABXProcessor) (fs : FS) (ext : ExtCall → Bool)
    (accents : List String) :
    (processLoop p fs ext accents).1 + (processLoop p fs ext accents).2.1.length =
      accents.length := by
  induction accents with
  | nil => rfl
  | cons accent rest ih =>
      by_cases hr : (processAccent p fs ext accent).1 = true
      · simp only [processLoop, hr, if_true, List.length_cons]
        omega
      · have hrf : (processAccent p fs ext accent).1 = false := by simpa using hr
        simp only [processLoop, hrf, Bool.false_eq_true, if_false, List.length_cons]
        omega

/-- The header of every accent in the list appears in the loop trace. -/
theorem processLoop_headers (p : ABXProcessor) (fs : FS) (ext : ExtCall → Bool)
    (accents : List String) :
    ∀ a ∈ accents,
      EventA.out ("Processing accent: " ++ a) ∈ (processLoop p fs ext accents).2.2 := by
  induction accents with
  | nil => intro a ha; simp at ha
  | cons accent rest ih =>
      intro a ha
      have hhead : EventA.out ("Processing accent: " ++ accent) ∈
          (processAccent p fs ext accent).2 := by
        by_cases hi : fs.pathExists (p.getItemFilePath accent) = false <;>
          by_cases hr : (runSteps ext (bodySteps accent (p.getItemFilePath accent)
            (p.getAccentDirectories fs accent).1 (p.getAccentDirectories fs accent).2)).1 = true <;>
          simp [processAccent, hi, hr, headerEvents]
      rcases List.mem_cons.mp ha with rfl | hrest
      · by_cases hr : (processAccent p fs ext a).1 = true <;>
          simp [processLoop, hr, hhead]
      · have := ih a hrest
        by_cases hr : (processAccent p fs ext accent).1 = true <;>
          simp [processLoop, hr, this]

/-- A failed accent ends up in the failed list of the loop. -/
theorem processLoop_failed_mem (p : ABXProcessor) (fs : FS) (ext : ExtCall → Bool)
    (accents : List String) :
    ∀ a ∈ accents, (processAccent p fs ext a).1 = false →
      a ∈ (processLoop p fs ext accents).2.1 := by
  induction accents with
  | nil => intro a ha; simp at ha
  | cons accent rest ih =>
      intro a ha hfail
      rcases List.mem_cons.mp ha with rfl | hrest
      · simp [processLoop, hfail]
      · have := ih a hrest hfail
        by_cases hr : (processAccent p fs ext accent).1 = true <;>
          simp [processLoop, hr, this]

/-- Creating a directory makes it exist. -/
theorem mkdirP_contains (fs : FS) (d : String) :
    ((fs.mkdirP d).paths).contains d = true := by
  by_cases h : d ∈ fs.paths <;> simp [FS.mkdirP, h]

/-- Creating a directory keeps every existing path. -/
theorem mkdirP_mono (fs : FS) (d e : String)
    (h : fs.paths.contains e = true) : ((fs.mkdirP d).paths).contains e = true := by
  by_cases hd : d ∈ fs.paths <;> simp_all [FS.mkdirP]

/-- Creating a directory twice is the same as creating it once. -/
theorem mkdirP_idem (fs : FS) (d : String) :
    (fs.mkdirP d).mkdirP d = fs.mkdirP d := by
  by_cases h : d ∈ fs.paths
  · simp [FS.mkdirP, h]
  · simp [FS.mkdirP, h]

/-- No pre or post event list of the try block contains an external
call marker. -/
theorem bodySteps_clean (accent item features times : String) :
    ∀ s ∈ bodySteps accent item features times,
      extACalls s.pre = [] ∧ extACalls s.post = [] := by
  intro s hs
  simp [bodySteps] at hs
  rcases hs with rfl | rfl | rfl | rfl | rfl | rfl | rfl | rfl | rfl <;> simp [extACalls]

/-- The calls of the try block, in order. -/
theorem bodySteps_calls (accent item features times : String) :
    (bodySteps accent item features times).map Step.call =
      [ExtCall.loadDataset item features times,
       ExtCall.mkTask "#phone" ["next-phone", "prev-phone"] (some ["speaker"]),
       ExtCall.mkScore "angular",
       ExtCall.writeCsv (acrossCsvName accent),
       ExtCall.collapse true,
       ExtCall.mkTask "#phone" ["next-phone", "prev-phone", "speaker"] none,
       ExtCall.mkScore "angular",
       ExtCall.writeCsv (withinCsvName accent),
       ExtCall.collapse true] := by
  rfl

/-- Every external call of a per-accent run is one of the calls of the try block listed in the
calls. -/
theorem processAccent_calls (p : ABXProcessor) (fs : FS) (ext : ExtCall → Bool)
    (accent : String) :
    ∀ c, c ∈ extACalls (processAccent p fs ext accent).2 →
      c ∈ (bodySteps accent (p.getItemFilePath accent)
        (p.getAccentDirectories fs accent).1
        (p.getAccentDirectories fs accent).2).map Step.call := by
  intro c hc
  by_cases hi : fs.pathExists (p.getItemFilePath accent) = false
  · simp [processAccent, hi, headerEvents, warnEvents, extACalls_append, extACalls] at hc
  · by_cases hr : (runSteps ext (bodySteps accent (p.getItemFilePath accent)
        (p.getAccentDirectories fs accent).1 (p.getAccentDirectories fs accent).2)).1 = true
    · simp [processAccent, hi, hr, headerEvents, extACalls_append, extACalls] at hc
      exact runSteps_calls ext _ (bodySteps_clean _ _ _ _) c hc
    · simp [processAccent, hi, hr, headerEvents, extACalls_append, extACalls] at hc
      exact runSteps_calls ext _ (bodySteps_clean _ _ _ _) c hc

/-- When a per-accent run succeeds, its trace is the header, the full
try-block trace, and the success print. -/
theorem processAccent_ok_trace (p : ABXProcessor) (fs : FS) (ext : ExtCall → Bool)
    (accent : String) (h : (processAccent p fs ext accent).1 = true) :
    (processAccent p fs ext accent).2 =
      headerEvents accent ++
      fullTrace (bodySteps accent (p.getItemFilePath accent)
        (p.getAccentDirectories fs accent).1 (p.getAccentDirectories fs accent).2) ++
      [EventA.out ("Successfully processed " ++ accent ++ " (both across and within)")] := by
  by_cases hi : fs.pathExists (p.getItemFilePath accent) = false
  · simp [processAccent, hi] at h
  · by_cases hr : (runSteps ext (bodySteps accent (p.getItemFilePath accent)
        (p.getAccentDirectories fs accent).1 (p.getAccentDirectories fs accent).2)).1 = true
    · simp [processAccent, hi, hr, runSteps_ok ext _ hr]
    · simp [processAccent, hi, hr] at h

/-! ## Claims -/

/-- C1: for every accent, the across task is built on the attribute
called hash-phone with match context next-phone and prev-phone and
across axis speaker; the within task adds speaker to the match context
and passes no across axis; every score uses the angular metric; and a
successful run constructs both tasks. -/
theorem c1_task_parameters (p : ABXProcessor) (fs : FS) (ext : ExtCall → Bool)
    (accent : String) :
    (∀ o b a, ExtCall.mkTask o b a ∈ extACalls (processAccent p fs ext accent).2 →
      (o = "#phone" ∧ b = ["next-phone", "prev-phone"] ∧ a = some ["speaker"]) ∨
      (o = "#phone" ∧ b = ["next-phone", "prev-phone", "speaker"] ∧ a = none))
    ∧ (∀ m, ExtCall.mkScore m ∈ extACalls (processAccent p fs ext accent).2 →
        m = "angular")
    ∧ ((processAccent p fs ext accent).1 = true →
        ExtCall.mkTask "#phone" ["next-phone", "prev-phone"] (some ["speaker"]) ∈
          extACalls (processAccent p fs ext accent).2 ∧
        ExtCall.mkTask "#phone" ["next-phone", "prev-phone", "speaker"] none ∈
          extACalls (processAccent p fs ext accent).2) := by
  refine ⟨?_, ?_, ?_⟩
  · intro o b a hmem
    have := processAccent_calls p fs ext accent _ hmem
    rw [bodySteps_calls] at this
    simp at this
    rcases this with h | h
    · exact Or.inl ⟨h.1, h.2.1, h.2.2⟩
    · exact Or.inr ⟨h.1, h.2.1, h.2.2⟩
  · intro m hmem
    have := processAccent_calls p fs ext accent _ hmem
    rw [bodySteps_calls] at this
    simp at this
    exact this
  · intro h
    rw [processAccent_ok_trace p fs ext accent h]
    rw [extACalls_append, extACalls_append]
    simp [headerEvents, extACalls, fullTrace, bodySteps, extACalls_append]

/-- C1 witness: a concrete successful run constructs exactly the two
documented tasks. -/
theorem c1_task_parameters_witness :
    ExtCall.mkTask "#phone" ["next-phone", "prev-phone"] (some ["speaker"]) ∈
      extACalls (processAccent ⟨"/b", "/f", "/t"⟩ ⟨["/b/Spanish/abx/spanish_item.item"]⟩
        (fun _ => false) "Spanish").2 ∧
    ExtCall.mkTask "#phone" ["next-phone", "prev-phone", "speaker"] none ∈
      extACalls (processAccent ⟨"/b", "/f", "/t"⟩ ⟨["/b/Spanish/abx/spanish_item.item"]⟩
        (fun _ => false) "Spanish").2 := by
  exact (c1_task_parameters ⟨"/b", "/f", "/t"⟩ ⟨["/b/Spanish/abx/spanish_item.item"]⟩
    (fun _ => false) "Spanish").2.2 (by decide)

/-- C2: the features directory resolves to the per-accent subdirectory
exactly when that path exists, else to the global features directory,
and identically for the times directory. -/
theorem c2_directory_resolution (p : ABXProcessor) (fs : FS) (accent : String) :
    (fs.pathExists (joinPath p.features_dir accent) = true →
      (p.getAccentDirectories fs accent).1 = joinPath p.features_dir accent)
    ∧ (fs.pathExists (joinPath p.features_dir accent) = false →
      (p.getAccentDirectories fs accent).1 = p.features_dir)
    ∧ (fs.pathExists (joinPath p.times_dir accent) = true →
      (p.getAccentDirectories fs accent).2 = joinPath p.times_dir accent)
    ∧ (fs.pathExists (joinPath p.times_dir accent) = false →
      (p.getAccentDirectories fs accent).2 = p.times_dir) := by
  refine ⟨?_, ?_, ?_, ?_⟩ <;> intro h <;> simp [ABXProcessor.getAccentDirectories, h]

/-- C2 witness: a synthetic tree where one accent has a per-accent
features override and another does not. -/
theorem c2_directory_resolution_witness :
    (ABXProcessor.getAccentDirectories ⟨"/base", "/features", "/times"⟩
      ⟨["/features/American"]⟩ "American").1 = "/features/American"
    ∧ (ABXProcessor.getAccentDirectories ⟨"/base", "/features", "/times"⟩
      ⟨["/features/American"]⟩ "Chinese").1 = "/features"
    ∧ (ABXProcessor.getAccentDirectories ⟨"/base", "/features", "/times"⟩
      ⟨["/features/American"]⟩ "American").2 = "/times" := by
  refine ⟨?_, ?_, ?_⟩
  · have h := (c2_directory_resolution ⟨"/base", "/features", "/times"⟩
      ⟨["/features/American"]⟩ "American").1 (by decide)
    exact h.trans (by decide)
  · have h := (c2_directory_resolution ⟨"/base", "/features", "/times"⟩
      ⟨["/features/American"]⟩ "Chinese").2.1 (by decide)
    exact h
  · have h := (c2_directory_resolution ⟨"/base", "/features", "/times"⟩
      ⟨["/features/American"]⟩ "American").2.2.2 (by decide)
    exact h

/-- C3: when the item file of an accent is absent, the per-accent run
prints the warning, performs no external call (in particular no dataset
load), and returns failure; the batch trace still contains the header of
every accent in the list. -/
theorem c3_missing_item (p : ABXProcessor) (fs : FS) (ext : ExtCall → Bool)
    (accents : List String) (accent : String)
    (h : fs.pathExists (p.getItemFilePath accent) = false) :
    processAccent p fs ext accent =
      (false, headerEvents accent ++ warnEvents accent (p.getItemFilePath accent))
    ∧ extACalls (processAccent p fs ext accent).2 = []
    ∧ ∀ a ∈ accents, EventA.out ("Processing accent: " ++ a) ∈
        (processAllAccents p fs ext accents).2 := by
  refine ⟨?_, ?_, ?_⟩
  · simp [processAccent, h]
  · simp [processAccent, h, headerEvents, warnEvents, extACalls_append, extACalls]
  · intro a ha
    have := processLoop_headers p fs ext accents a ha
    simp [processAllAccents]
    exact Or.inl this

/-- C3 witness: with an empty filesystem the accent American is skipped
with no external call, and the later accent Chinese is still reached. -/
theorem c3_missing_item_witness :
    extACalls (processAccent ⟨"/base", "/features", "/times"⟩ ⟨[]⟩
      (fun _ => false) "American").2 = []
    ∧ EventA.out ("Processing accent: " ++ "Chinese") ∈
        (processAllAccents ⟨"/base", "/features", "/times"⟩ ⟨[]⟩
          (fun _ => false) ["American", "Chinese"]).2 := by
  have h := c3_missing_item ⟨"/base", "/features", "/times"⟩ ⟨[]⟩
    (fun _ => false) ["American", "Chinese"] "American" (by decide)
  exact ⟨h.2.1, h.2.2 "Chinese" (by decide)⟩

/-- C4: for any raise behaviour of the external library the batch loop
runs to completion: the summary (including its closing line and the
total count) is always printed, every accent is counted exactly once as
a success or a failure, and every failed accent appears in the failed
list. -/
theorem c4_no_exception_propagates (p : ABXProcessor) (fs : FS) (ext : ExtCall → Bool)
    (accents : List String) :
    EventA.out "All accents have been processed." ∈ (processAllAccents p fs ext accents).2
    ∧ EventA.out ("Total accents: " ++ toString accents.length) ∈
        (processAllAccents p fs ext accents).2
    ∧ (processAllAccents p fs ext accents).1.successCount +
        (processAllAccents p fs ext accents).1.failedAccents.length = accents.length
    ∧ (∀ a ∈ accents, (processAccent p fs ext a).1 = false →
        a ∈ (processAllAccents p fs ext accents).1.failedAccents) := by
  refine ⟨?_, ?_, ?_, ?_⟩
  · by_cases hf : (processLoop p fs ext accents).2.1 = [] <;>
      simp [processAllAccents, summaryEvents, hf]
  · by_cases hf : (processLoop p fs ext accents).2.1 = [] <;>
      simp [processAllAccents, summaryEvents, hf]
  · simpa [processAllAccents] using processLoop_count p fs ext accents
  · intro a ha hfail
    simpa [processAllAccents] using processLoop_failed_mem p fs ext accents a ha hfail

/-- C4 witness: with an external library that always raises, the single
accent is counted as failed and the summary is still printed. -/
theorem c4_no_exception_propagates_witness :
    EventA.out "All accents have been processed." ∈
      (processAllAccents ⟨"/b", "/f", "/t"⟩ ⟨["/b/Spanish/abx/spanish_item.item"]⟩
        (fun _ => true) ["Spanish"]).2
    ∧ "Spanish" ∈ (processAllAccents ⟨"/b", "/f", "/t"⟩
        ⟨["/b/Spanish/abx/spanish_item.item"]⟩ (fun _ => true) ["Spanish"]).1.failedAccents := by
  have h := c4_no_exception_propagates ⟨"/b", "/f", "/t"⟩
    ⟨["/b/Spanish/abx/spanish_item.item"]⟩ (fun _ => true) ["Spanish"]
  exact ⟨h.1, h.2.2.2 "Spanish" (by decide) (by decide)⟩

/-- C6: the summary counts satisfy total equals successes plus failures,
the failed list length equals the failed count, and the printed total,
success and failed lines carry exactly those numbers. -/
theorem c6_summary_invariant (p : ABXProcessor) (fs : FS) (ext : ExtCall → Bool)
    (accents : List String) :
    (processAllAccents p fs ext accents).1.total =
      (processAllAccents p fs ext accents).1.successCount +
      (processAllAccents p fs ext accents).1.failedAccents.length
    ∧ EventA.out ("Total accents: " ++
        toString ((processAllAccents p fs ext accents).1.successCount +
          (processAllAccents p fs ext accents).1.failedAccents.length)) ∈
        (processAllAccents p fs ext accents).2
    ∧ EventA.out ("Successfully processed: " ++
        toString (processAllAccents p fs ext accents).1.successCount) ∈
        (processAllAccents p fs ext accents).2
    ∧ EventA.out ("Failed: " ++
        toString (processAllAccents p fs ext accents).1.failedAccents.length) ∈
        (processAllAccents p fs ext accents).2 := by
  have hc := processLoop_count p fs ext accents
  refine ⟨?_, ?_, ?_, ?_⟩
  · simp [processAllAccents]
    omega
  · have : (processAllAccents p fs ext accents).1.successCount +
        (processAllAccents p fs ext accents).1.failedAccents.length = accents.length := by
      simpa [processAllAccents] using hc
    rw [this]
    by_cases hf : (processLoop p fs ext accents).2.1 = [] <;>
      simp [processAllAccents, summaryEvents, hf]
  · by_cases hf : (processLoop p fs ext accents).2.1 = [] <;>
      simp [processAllAccents, summaryEvents, hf]
  · by_cases hf : (processLoop p fs ext accents).2.1 = [] <;>
      simp [processAllAccents, summaryEvents, hf]

/-- C7: a successfully processed accent writes exactly the two CSV
files, whose names are derived from the lowercased accent label. -/
theorem c7_two_csv_files (p : ABXProcessor) (fs : FS) (ext : ExtCall → Bool)
    (accent : String) (h : (processAccent p fs ext accent).1 = true) :
    csvWrites (processAccent p fs ext accent).2 =
      [strToLower accent ++ "_dev_across_scores.csv",
       strToLower accent ++ "_dev_within_scores.csv"] := by
  rw [processAccent_ok_trace p fs ext accent h]
  rw [csvWrites_append, csvWrites_append]
  simp [headerEvents, csvWrites, fullTrace, bodySteps, csvWrites_append,
    acrossCsvName, withinCsvName]

/-- C7 witness: a concrete successful run of the accent Spanish writes
exactly the two expected CSV files. -/
theorem c7_two_csv_files_witness :
    csvWrites (processAccent ⟨"/b", "/f", "/t"⟩ ⟨["/b/Spanish/abx/spanish_item.item"]⟩
      (fun _ => false) "Spanish").2 =
      ["spanish_dev_across_scores.csv", "spanish_dev_within_scores.csv"] := by
  have h := c7_two_csv_files ⟨"/b", "/f", "/t"⟩ ⟨["/b/Spanish/abx/spanish_item.item"]⟩
    (fun _ => false) "Spanish" (by decide)
  exact h.trans (by decide)

/-- A directory that already exists is not created again. -/
theorem mkdirP_noop (fs : FS) (d : String) (h : fs.paths.contains d = true) :
    fs.mkdirP d = fs := by
  have hm : d ∈ fs.paths := by simpa using h
  simp [FS.mkdirP, hm]

/-- The processor constructor filesystem effect is idempotent. -/
theorem initProcessorFS_idem (fs : FS) (features_dir times_dir : String) :
    initProcessorFS (initProcessorFS fs features_dir times_dir) features_dir times_dir =
      initProcessorFS fs features_dir times_dir := by
  have hf : ((fs.mkdirP features_dir).mkdirP times_dir).paths.contains features_dir = true :=
    mkdirP_mono _ _ _ (mkdirP_contains fs features_dir)
  have h1 : ((fs.mkdirP features_dir).mkdirP times_dir).mkdirP features_dir =
      (fs.mkdirP features_dir).mkdirP times_dir := mkdirP_noop _ _ hf
  simp [initProcessorFS, h1, mkdirP_idem]

/-- When no external call raises, a per-accent run writes nothing to
standard error. -/
theorem stderrWrites_processAccent (p : ABXProcessor) (fs : FS) (ext : ExtCall → Bool)
    (accent : String) (hext : ∀ c, ext c = false) :
    stderrWrites (processAccent p fs ext accent).2 = [] := by
  by_cases hi : fs.pathExists (p.getItemFilePath accent) = false
  · simp [processAccent, hi, headerEvents, warnEvents, stderrWrites_append, stderrWrites]
  · have hr : (runSteps ext (bodySteps accent (p.getItemFilePath accent)
        (p.getAccentDirectories fs accent).1 (p.getAccentDirectories fs accent).2)).1 = true := by
      rw [runSteps_ok_iff]
      intro s _
      exact hext s.call
    rw [processAccent_ok_trace p fs ext accent (by simp [processAccent, hi, hr])]
    rw [stderrWrites_append, stderrWrites_append]
    simp [headerEvents, stderrWrites, fullTrace, bodySteps, stderrWrites_append]

/-- When no external call raises, the batch loop writes nothing to
standard error. -/
theorem stderrWrites_processLoop (p : ABXProcessor) (fs : FS) (ext : ExtCall → Bool)
    (accents : List String) (hext : ∀ c, ext c = false) :
    stderrWrites (processLoop p fs ext accents).2.2 = [] := by
  induction accents with
  | nil => rfl
  | cons accent rest ih =>
      have ha := stderrWrites_processAccent p fs ext accent hext
      by_cases hr : (processAccent p fs ext accent).1 = true <;>
        simp [processLoop, hr, stderrWrites_append, stderrWrites, ha, ih]

/-- The summary prints go to standard output only. -/
theorem stderrWrites_summaryEvents (total successCount : Nat) (failed : List String) :
    stderrWrites (summaryEvents total successCount failed) = [] := by
  by_cases hf : failed = [] <;>
    simp [summaryEvents, hf, stderrWrites_append, stderrWrites]

/-- C9 counterexample: with an item file present and a dataset load that
raises, the caught exception makes traceback.print_exc write the stack
trace to standard error, so Driver A does not write to standard output
only. -/
theorem c9_stdout_only_counterexample :
    stderrWrites (driverARun ⟨["/b/Spanish/abx/spanish_item.item"]⟩
      (fun c => match c with | ExtCall.loadDataset _ _ _ => true | _ => false)
      "/b" "/f" "/t" ["Spanish"]).2.2 = [EventA.errTraceback] := by
  decide

/-- C9 (amended): the side effects of Driver A are creating the features and
times directories if absent (idempotent, at construction), writing the
per-accent CSV files, and diagnostic text on standard output — except
that when a per-accent exception is caught, a stack trace is also
written to standard error; in particular when no external call raises,
nothing is written to standard error. -/
theorem c9_side_effects (fs : FS) (ext : ExtCall → Bool)
    (base_dir features_dir times_dir : String) (accents : List String) :
    (driverARun fs ext base_dir features_dir times_dir accents).1 =
      (fs.mkdirP features_dir).mkdirP times_dir
    ∧ initProcessorFS (initProcessorFS fs features_dir times_dir) features_dir times_dir =
        initProcessorFS fs features_dir times_dir
    ∧ ((∀ c, ext c = false) →
        stderrWrites (driverARun fs ext base_dir features_dir times_dir accents).2.2 = []) := by
  refine ⟨rfl, initProcessorFS_idem fs features_dir times_dir, ?_⟩
  intro hext
  simp only [driverARun, processAllAccents]
  rw [stderrWrites_append]
  rw [stderrWrites_processLoop _ _ ext accents hext, stderrWrites_summaryEvents]
  rfl

/-- C9 witness: a concrete run with no raising call writes nothing to
standard error. -/
theorem c9_side_effects_witness :
    stderrWrites (driverARun ⟨["/b/Spanish/abx/spanish_item.item"]⟩ (fun _ => false)
      "/b" "/f" "/t" ["Spanish", "American"]).2.2 = [] := by
  exact (c9_side_effects ⟨["/b/Spanish/abx/spanish_item.item"]⟩ (fun _ => false)
    "/b" "/f" "/t" ["Spanish", "American"]).2.2 (fun _ => rfl)

/-- C5: a missing corpus directory or alignment file yields exit status
1 and an error message naming the missing path on standard error, with
no corpus-load or conversion call; with existing inputs and no external
failure the exit status is 0. -/
theorem c5_missing_inputs (fs : FS) (a : ArgsB) (ext : BCall → Bool) :
    (fs.pathExists a.corpus_dir = false →
      mainB fs a ext = (1, [EventB.errOut ("Error: " ++
        ("Corpus directory does not exist: " ++ a.corpus_dir))], fs)
      ∧ bCalls (mainB fs a ext).2.1 = [])
    ∧ (fs.pathExists a.corpus_dir = true → fs.pathExists a.alignment_file = false →
      mainB fs a ext = (1, [EventB.errOut ("Error: " ++
        ("Alignment file does not exist: " ++ a.alignment_file))], fs)
      ∧ bCalls (mainB fs a ext).2.1 = [])
    ∧ (fs.pathExists a.corpus_dir = true → fs.pathExists a.alignment_file = true →
      (∀ c, ext c = false) → (mainB fs a ext).1 = 0) := by
  refine ⟨?_, ?_, ?_⟩
  · intro hc
    constructor
    · simp [mainB, validateInputs, hc]
    · simp [mainB, validateInputs, hc, bCalls]
  · intro hc ha
    constructor
    · simp [mainB, validateInputs, hc, ha]
    · simp [mainB, validateInputs, hc, ha, bCalls]
  · intro hc ha hext
    by_cases hv : a.validate_only = true
    · simp [mainB, validateInputs, hc, ha, hv]
    · simp [mainB, validateInputs, hc, ha, hv, runGen, hext]

/-- C5 witness: with no filesystem entries the corpus check fails with
exit status 1 and no external call; with both inputs present and a
non-raising library the exit status is 0. -/
theorem c5_missing_inputs_witness :
    (mainB ⟨[]⟩ ⟨"ali.txt", "corpus", "out/item.item", "single_phone", [], 4, 1, false, false⟩
      (fun _ => false)).1 = 1
    ∧ bCalls (mainB ⟨[]⟩ ⟨"ali.txt", "corpus", "out/item.item", "single_phone", [], 4, 1,
        false, false⟩ (fun _ => false)).2.1 = []
    ∧ (mainB ⟨["corpus", "ali.txt"]⟩ ⟨"ali.txt", "corpus", "out/item.item", "single_phone",
        [], 4, 1, false, false⟩ (fun _ => false)).1 = 0 := by
  have h1 := (c5_missing_inputs ⟨[]⟩
    ⟨"ali.txt", "corpus", "out/item.item", "single_phone", [], 4, 1, false, false⟩
    (fun _ => false)).1 (by decide)
  have h2 := (c5_missing_inputs ⟨["corpus", "ali.txt"]⟩
    ⟨"ali.txt", "corpus", "out/item.item", "single_phone", [], 4, 1, false, false⟩
    (fun _ => false)).2.2 (by decide) (by decide) (fun _ => rfl)
  exact ⟨by rw [h1.1], h1.2, h2⟩

/-- C8: with existing inputs and the validate-only flag, Driver B only
validates: it prints the success message and the three resolved paths,
makes no corpus-load or conversion call, and exits with status 0. -/
theorem c8_validate_only (fs : FS) (a : ArgsB) (ext : BCall → Bool)
    (hc : fs.pathExists a.corpus_dir = true) (ha : fs.pathExists a.alignment_file = true)
    (hv : a.validate_only = true) :
    mainB fs a ext = (0, validateOnlyEvents a, fs.mkdirP (parentPath a.item_file))
    ∧ bCalls (mainB fs a ext).2.1 = [] := by
  constructor
  · simp [mainB, validateInputs, hc, ha, hv]
  · simp [mainB, validateInputs, hc, ha, hv, validateOnlyEvents, bCalls]

/-- C8 witness: a concrete validate-only invocation exits 0, reports the
resolved paths, and makes no external call. -/
theorem c8_validate_only_witness :
    mainB ⟨["corpus", "ali.txt"]⟩ ⟨"ali.txt", "corpus", "out/item.item", "single_phone",
      [], 4, 1, false, true⟩ (fun _ => false) =
      (0, [EventB.out "✓ All inputs validated successfully!",
           EventB.out "Corpus directory: corpus",
           EventB.out "Alignment file: ali.txt",
           EventB.out "Output item file: out/item.item"], ⟨["out", "corpus", "ali.txt"]⟩)
    ∧ bCalls (mainB ⟨["corpus", "ali.txt"]⟩ ⟨"ali.txt", "corpus", "out/item.item",
        "single_phone", [], 4, 1, false, true⟩ (fun _ => false)).2.1 = [] := by
  have h := c8_validate_only ⟨["corpus", "ali.txt"]⟩
    ⟨"ali.txt", "corpus", "out/item.item", "single_phone", [], 4, 1, false, true⟩
    (fun _ => false) (by decide) (by decide) rfl
  exact ⟨h.1.trans (by decide), h.2⟩

/-- C10: the corpus-directory check precedes the alignment-file check
(the error for a missing corpus directory wins even when both are
missing), a validation failure leaves the filesystem unchanged, and the
output parent directory is created exactly when both checks pass. -/
theorem c10_validation_order (fs : FS) (a : ArgsB) (ext : BCall → Bool) :
    (fs.pathExists a.corpus_dir = false →
      validateInputs fs a.corpus_dir a.alignment_file a.item_file =
        Except.error ("Corpus directory does not exist: " ++ a.corpus_dir))
    ∧ (∀ msg, validateInputs fs a.corpus_dir a.alignment_file a.item_file =
        Except.error msg → (mainB fs a ext).2.2 = fs)
    ∧ (∀ fs2, validateInputs fs a.corpus_dir a.alignment_file a.item_file =
        Except.ok fs2 → fs2 = fs.mkdirP (parentPath a.item_file)) := by
  refine ⟨?_, ?_, ?_⟩
  · intro hc
    simp [validateInputs, hc]
  · intro msg hmsg
    simp [mainB, hmsg]
  · intro fs2 hok
    by_cases hc : fs.pathExists a.corpus_dir = false
    · simp [validateInputs, hc] at hok
    · by_cases ha : fs.pathExists a.alignment_file = false
      · simp [validateInputs, hc, ha] at hok
      · simp [validateInputs, hc, ha] at hok
        exact hok.symm

/-- C10 witness: with both inputs missing, the reported error is the
corpus one, and the filesystem after the failed invocation is unchanged
(no output parent directory appears). -/
theorem c10_validation_order_witness :
    validateInputs ⟨[]⟩ "corpus" "ali.txt" "out/item.item" =
      Except.error "Corpus directory does not exist: corpus"
    ∧ (mainB ⟨[]⟩ ⟨"ali.txt", "corpus", "out/item.item", "single_phone", [], 4, 1,
        false, false⟩ (fun _ => false)).2.2 = ⟨[]⟩ := by
  have h := c10_validation_order ⟨[]⟩
    ⟨"ali.txt", "corpus", "out/item.item", "single_phone", [], 4, 1, false, false⟩
    (fun _ => false)
  refine ⟨(h.1 (by decide)).trans (congrArg Except.error (by decide)), ?_⟩
  exact h.2.1 ("Corpus directory does not exist: " ++ "corpus") (h.1 (by decide))

end ABXAccent
